import Mathlib

set_option maxHeartbeats 1000000

namespace GqlHide

/-- Valid contexts for the graphql show and hide attributes, embedding the
source's ShowContext union type ("query" | "read" | "create" | "update"). -/
inductive Ctx where
  | query
  | read
  | create
  | update
deriving DecidableEq

/-- String name of a context, the reverse direction of the source's
validContexts membership table. -/
def ctxName : Ctx → String
  | Ctx.query => "query"
  | Ctx.read => "read"
  | Ctx.create => "create"
  | Ctx.update => "update"

/-- Parameters for the HideField directive (interface HideFieldParams):
optional input and output booleans and an optional glob match pattern. -/
structure HideFieldParams where
  input : Option Bool := none
  output : Option Bool := none
  «match» : Option String := none
deriving DecidableEq

/-- Diagnostic warnings emitted on the console by the plugin, tagged by
category: unknown parameter name in a show attribute, unknown parameter name
in a hide attribute, and a hide attribute with arguments but no contexts. -/
inductive Warning where
  | unknownShowParam (modelName fieldName paramName : String)
  | unknownHideParam (modelName fieldName paramName : String)
  | vacuousHide (modelName fieldName : String)
deriving DecidableEq

/-- One attribute argument: its name and its literal value node, which carries
a type discriminator string and, when the literal is a boolean, that boolean. -/
structure AttrArg where
  name : String
  vtype : String
  bvalue : Option Bool
deriving DecidableEq

/-- An attribute on a field: the resolved declaration name (attr.decl.ref?.name,
absent when unresolved), the raw reference text (attr.decl.$refText), and the
argument list (absent to model a missing args array). -/
structure Attr where
  declName : Option String
  refText : String
  args : Option (List AttrArg)
deriving DecidableEq

/-- A schema field as the plugin reads it: name, the $type of the declaration
its type reference resolves to (some "DataModel" exactly for relations),
its attribute list and its mutable comment list. -/
structure Field where
  name : String
  typeRefType : Option String
  attributes : List Attr
  comments : List String
deriving DecidableEq

/-- A data-model declaration: its name and its fields, the shape over which
the plugin's main loop runs. -/
structure DataModelDecl where
  name : String
  fields : List Field
deriving DecidableEq

/-- First-occurrence deduplication of a context list, embedding the source's
uniqueContexts construction through a JS Set, which keeps the first
occurrence of each element in insertion order. -/
def dedupFirst : List Ctx → List Ctx
  | [] => []
  | c :: cs => c :: (dedupFirst cs).filter (fun x => x != c)

/-- Boolean test that sub occurs as a contiguous segment of the second list,
the character-level meaning of the JavaScript includes check on strings. -/
def containsSeg (sub : List Char) : List Char → Bool
  | [] => sub.isEmpty
  | c :: rest => sub.isPrefixOf (c :: rest) || containsSeg sub rest

/-- JS s.includes(sub) on strings, via the underlying character lists. -/
def strIncludes (s sub : String) : Bool := containsSeg sub.data s.data

/-- JS template rendering of a boolean into a string. -/
def boolStr (b : Bool) : String := if b then "true" else "false"

/-- JS truthiness of the optional match field: defined and non-empty. -/
def truthyStr : Option String → Bool
  | none => false
  | some s => s != ""

/-- Generate the HideField comment for directive parameters, embedding
generateHideFieldComment: a match pattern renders as a match directive, else
defined input and output flags render comma-joined, else the default
hide-everywhere text. -/
def generateHideFieldComment (params : HideFieldParams) : String :=
  if truthyStr params.«match» then
    "/// @HideField(\x7b match: \x27" ++ params.«match».getD "" ++ "\x27 \x7d)"
  else if params.input.isSome || params.output.isSome then
    let parts : List String :=
      (match params.input with
       | some b => ["input: " ++ boolStr b]
       | none => []) ++
      (match params.output with
       | some b => ["output: " ++ boolStr b]
       | none => [])
    "/// @HideField(\x7b " ++ String.intercalate ", " parts ++ " \x7d)"
  else
    "/// @HideField(\x7b input: true, output: true \x7d)"

/-- Render a fragment list as directive parameters: a single fragment is used
bare, several fragments are joined with a bar inside the alternation wrapper.
This is the single-or-alternation return step the source repeats at the end
of each pattern-building branch. -/
def mkMatchParams (ps : List String) : HideFieldParams :=
  if ps.length = 1 then { «match» := some (ps.headD "") }
  else { «match» := some ("@(" ++ String.intercalate "|" ps ++ ")") }

/-- Straight-line remainder of contextsToHideFieldPattern after the
query/read normalization branch, as a function of the four membership flags,
which are all the normalized context list is consulted for: build the
exclusion fragment list, then return the show-everywhere null, the simple
output-only directive, the all-inputs pattern, the accumulated pattern, or
null, in the source's order of cases. -/
def showFromBools (hasQuery hasRead hasCreate hasUpdate : Bool) : Option HideFieldParams :=
  let patterns : List String :=
    (if !hasQuery && hasRead then ["*(Where*Input)"] else []) ++
    (if !hasCreate then ["*(*Create*Input)"] else []) ++
    (if !hasUpdate then ["*(*Update*Input)"] else [])
  let hideOutput := !hasQuery && !hasRead
  if (hasQuery || hasRead) && hasCreate && hasUpdate
      && !(patterns.contains "*(Where*Input)") then
    none
  else if hideOutput && hasCreate && hasUpdate then
    some { input := some false, output := some true }
  else if (hasQuery || hasRead) && !hasCreate && !hasUpdate then
    let inputPatterns : List String :=
      ["*(*Create*Input)", "*(*Update*Input)"] ++
      (if hasRead && !hasQuery then ["*(Where*Input)"] else [])
    some (mkMatchParams inputPatterns)
  else if patterns.length > 0 then
    some (mkMatchParams patterns)
  else
    none

/-- Filter length strictly drops when some member fails the predicate. -/
theorem length_filter_lt {α : Type} (p : α → Bool) (l : List α) (a : α)
    (ha : a ∈ l) (hpa : p a = false) : (l.filter p).length < l.length := by
  induction l with
  | nil => cases ha
  | cons b t ih =>
    rcases List.mem_cons.mp ha with hb | ht
    · subst hb
      rw [List.filter_cons, if_neg (by simp [hpa])]
      exact Nat.lt_succ_of_le (List.length_filter_le p t)
    · by_cases hpb : p b = true
      · rw [List.filter_cons, if_pos hpb]
        exact Nat.succ_lt_succ (ih ht)
      · rw [List.filter_cons, if_neg hpb]
        exact Nat.lt_succ_of_lt (ih ht)

/-- Deduplication never lengthens a list. -/
theorem dedupFirst_length_le (l : List Ctx) : (dedupFirst l).length ≤ l.length := by
  induction l with
  | nil => simp [dedupFirst]
  | cons c cs ih =>
    simp only [dedupFirst, List.length_cons]
    exact Nat.succ_le_succ (Nat.le_trans (List.length_filter_le _ _) ih)

/-- Membership is preserved by first-occurrence deduplication. -/
theorem mem_dedupFirst {a : Ctx} {l : List Ctx} : a ∈ dedupFirst l ↔ a ∈ l := by
  induction l with
  | nil => simp [dedupFirst]
  | cons c cs ih =>
    simp only [dedupFirst, List.mem_cons, List.mem_filter, bne_iff_ne, ne_eq, ih]
    by_cases hac : a = c <;> simp [hac]

/-- Boolean contains agrees with membership on context lists. -/
theorem ctx_contains_iff {l : List Ctx} {a : Ctx} : l.contains a = true ↔ a ∈ l := by
  simp [List.contains]

/-- Convert the show attribute boolean flags to a HideField match pattern,
embedding contextsToHideFieldPattern: deduplicate, resolve the query/read
conflict by recursing with read removed (query takes precedence), then
compute the directive from the four membership flags via showFromBools. -/
def contextsToHideFieldPattern (contexts : List Ctx) : Option HideFieldParams :=
  let uniqueContexts := dedupFirst contexts
  if hqr : uniqueContexts.contains Ctx.query && uniqueContexts.contains Ctx.read then
    contextsToHideFieldPattern (uniqueContexts.filter (fun c => c != Ctx.read))
  else
    showFromBools (uniqueContexts.contains Ctx.query) (uniqueContexts.contains Ctx.read)
      (uniqueContexts.contains Ctx.create) (uniqueContexts.contains Ctx.update)
termination_by contexts.length
decreasing_by
  have hread : Ctx.read ∈ dedupFirst contexts :=
    ctx_contains_iff.mp (Bool.and_elim_right hqr)
  exact Nat.lt_of_lt_of_le
    (length_filter_lt _ _ Ctx.read hread (by decide))
    (dedupFirst_length_le contexts)

/-- Recognize an argument name as a context, embedding the source's
validContexts.includes test together with the identity of the name. -/
def ctxOfName (s : String) : Option Ctx :=
  if s = "query" then some Ctx.query
  else if s = "read" then some Ctx.read
  else if s = "create" then some Ctx.create
  else if s = "update" then some Ctx.update
  else none

/-- An argument counts as an explicitly true flag when its literal node is a
BooleanLiteral or LiteralExpr whose value is the boolean true. -/
def argIsTrue (arg : AttrArg) : Bool :=
  (arg.vtype == "BooleanLiteral" || arg.vtype == "LiteralExpr") && arg.bvalue == some true

/-- Walk an argument list in order, embedding the shared for-loop of
parseShowContexts and parseHideContexts: unknown names produce a warning and
are skipped, recognized names with a true boolean literal contribute their
context, everything else is silently ignored. -/
def collectContexts (mkWarn : String → Warning) : List AttrArg → List Ctx × List Warning
  | [] => ([], [])
  | arg :: rest =>
    match ctxOfName arg.name with
    | none =>
      let r := collectContexts mkWarn rest
      (r.1, mkWarn arg.name :: r.2)
    | some c =>
      if argIsTrue arg then
        let r := collectContexts mkWarn rest
        (c :: r.1, r.2)
      else
        collectContexts mkWarn rest

/-- Parse the show attribute arguments, embedding parseShowContexts: a
missing or empty argument list means show everywhere (null), otherwise the
collected true contexts, or null when none were collected. -/
def parseShowContexts (attr : Attr) (fieldName modelName : String) :
    Option (List Ctx) × List Warning :=
  match attr.args with
  | none => (none, [])
  | some args =>
    if args = [] then (none, [])
    else
      let parsed := collectContexts (Warning.unknownShowParam modelName fieldName) args
      (if parsed.1 = [] then none else some parsed.1, parsed.2)

/-- Exclusion fragments pushed by parseHideContexts for the hidden contexts:
hiding query pushes the filter and sort-order fragments, hiding create and
update push their form fragments, in the source's push order. -/
def hidePatterns (hasQuery hasCreate hasUpdate : Bool) : List String :=
  (if hasQuery then ["*(Where*Input)", "*(*OrderBy*Input)"] else []) ++
  (if hasCreate then ["*(*Create*Input)"] else []) ++
  (if hasUpdate then ["*(*Update*Input)"] else [])

/-- Straight-line remainder of parseHideContexts after the query/read
normalization branch, as a function of the four membership flags, which are
all the normalized hidden-context list is consulted for: full hide, output
only, inputs only, or the mixed case that drops the filter and sort-order
fragments and appends the (Output) marker, in the source's order of cases. -/
def hideFromBools (hasQuery hasRead hasCreate hasUpdate : Bool) : Option HideFieldParams :=
  let patterns := hidePatterns hasQuery hasCreate hasUpdate
  let hideOutput := hasQuery || (hasRead && !hasQuery)
  if hideOutput && hasCreate && hasUpdate && patterns.contains "*(Where*Input)" then
    some { input := some true, output := some true }
  else if hideOutput && !hasCreate && !hasUpdate then
    some { input := some false, output := some true }
  else if !hideOutput && patterns.length > 0 then
    some (mkMatchParams patterns)
  else if hideOutput && patterns.length > 0 then
    let filteredPatterns := patterns.filter
      (fun p => !(strIncludes p "Where") && !(strIncludes p "OrderBy"))
    if filteredPatterns.length > 0 then
      some (mkMatchParams (filteredPatterns ++ ["(Output)"]))
    else
      some { input := some false, output := some true }
  else
    none

/-- Synthetic boolean-true argument for a context, as built by the source's
recursive normalization call (name with a BooleanLiteral true value). -/
def mkBoolArg (c : Ctx) : AttrArg :=
  { name := ctxName c, vtype := "BooleanLiteral", bvalue := some true }

/-- Synthetic attribute carrying only an args array of boolean-true context
flags, the object literal passed to the recursive parseHideContexts call. -/
def mkArgsOnlyAttr (cs : List Ctx) : Attr :=
  { declName := none, refText := "", args := some (cs.map mkBoolArg) }

/-- Collected contexts are never more numerous than the argument list. -/
theorem collect_fst_length_le (mkWarn : String → Warning) (args : List AttrArg) :
    (collectContexts mkWarn args).1.length ≤ args.length := by
  induction args with
  | nil => simp [collectContexts]
  | cons arg rest ih =>
    simp only [collectContexts]
    cases ctxOfName arg.name with
    | none => exact Nat.le_succ_of_le ih
    | some c =>
      by_cases ht : argIsTrue arg = true
      · simp only [ht, if_true, List.length_cons]
        exact Nat.succ_le_succ ih
      · simp only [ht, if_false]
        exact Nat.le_succ_of_le ih

/-- Parse the hide attribute arguments, embedding parseHideContexts: a
missing or empty argument list is the hide-everywhere shortcut, an argument
list that yields no contexts returns null, a list hiding both query and read
recurses on a synthetic attribute with read removed, and otherwise the
directive is computed from the four membership flags via hideFromBools.
Warnings printed before and inside the recursive call are accumulated. -/
def parseHideContexts (attr : Attr) (fieldName modelName : String) :
    Option HideFieldParams × List Warning :=
  match hargs : attr.args with
  | none => (some { input := some true, output := some true }, [])
  | some args =>
    if hne : args = [] then (some { input := some true, output := some true }, [])
    else
      let parsed := collectContexts (Warning.unknownHideParam modelName fieldName) args
      if hempty : parsed.1 = [] then (none, parsed.2)
      else
        if hqr : parsed.1.contains Ctx.query && parsed.1.contains Ctx.read then
          let res := parseHideContexts
            (mkArgsOnlyAttr (parsed.1.filter (fun c => c != Ctx.read))) fieldName modelName
          (res.1, parsed.2 ++ res.2)
        else
          (hideFromBools (parsed.1.contains Ctx.query) (parsed.1.contains Ctx.read)
            (parsed.1.contains Ctx.create) (parsed.1.contains Ctx.update), parsed.2)
termination_by (attr.args.getD []).length
decreasing_by
  simp only [hargs, mkArgsOnlyAttr, Option.getD_some, List.length_map]
  have hread : Ctx.read ∈ (collectContexts (Warning.unknownHideParam modelName fieldName) args).1 :=
    ctx_contains_iff.mp (Bool.and_elim_right hqr)
  exact Nat.lt_of_lt_of_le
    (length_filter_lt _ _ Ctx.read hread (by decide))
    (collect_fst_length_le _ args)

/-- Resolved name of an attribute: the declaration reference name when it is
present and non-empty (JS truthiness of the or-chain), else the raw text. -/
def attrName (a : Attr) : String :=
  match a.declName with
  | some n => if n = "" then a.refText else n
  | none => a.refText

/-- Find the first attribute whose resolved name equals the given name, with
or without a leading at sign, embedding findAttribute. -/
def findAttribute (field : Field) (name : String) : Option Attr :=
  field.attributes.find? (fun attr => attrName attr == name || attrName attr == "@" ++ name)

/-- Whether some existing comment already mentions the HideField marker,
the hasHideFieldComment check inside addHideFieldComment. -/
def hasHideFieldComment (comments : List String) : Bool :=
  comments.any (fun comment => strIncludes comment "@HideField")

/-- Attach the rendered HideField comment to a field unless one of its
comments already mentions the HideField marker, embedding addHideFieldComment
and its idempotence check. -/
def addHideFieldComment (field : Field) (hideFieldParams : HideFieldParams) : Field :=
  let hideFieldComment := generateHideFieldComment hideFieldParams
  if hasHideFieldComment field.comments then
    field
  else
    { field with comments := field.comments ++ [hideFieldComment] }

/-- Per-field step of the plugin's main loop: prefer the show attribute,
then the hide attribute, then the default classification that hides relation
fields everywhere; also return the warnings the step prints. -/
def processField (modelName : String) (field : Field) : Field × List Warning :=
  match findAttribute field "graphql.show" with
  | some showAttr =>
    let res := parseShowContexts showAttr field.name modelName
    match res.1 with
    | none => (field, res.2)
    | some contexts =>
      match contextsToHideFieldPattern contexts with
      | none => (field, res.2)
      | some hideFieldParams => (addHideFieldComment field hideFieldParams, res.2)
  | none =>
    match findAttribute field "graphql.hide" with
    | some hideAttr =>
      let res := parseHideContexts hideAttr field.name modelName
      match res.1 with
      | none => (field, res.2 ++ [Warning.vacuousHide modelName field.name])
      | some hideFieldParams => (addHideFieldComment field hideFieldParams, res.2)
    | none =>
      if field.typeRefType = some "DataModel" then
        (addHideFieldComment field { input := some true, output := some true }, [])
      else
        (field, [])

/-- Process every field of one model declaration in order. -/
def processModel (modelDecl : DataModelDecl) : DataModelDecl × List Warning :=
  let results := modelDecl.fields.map (processField modelDecl.name)
  ({ name := modelDecl.name, fields := results.map Prod.fst },
    (results.map Prod.snd).flatten)

/-- One orchestration pass of the plugin over the filtered data-model
declarations, returning the annotated declarations and all warnings. -/
def runPass (models : List DataModelDecl) : List DataModelDecl × List Warning :=
  let results := models.map processModel
  (results.map Prod.fst, (results.map Prod.snd).flatten)

/-- Contains is decide of membership on context lists. -/
theorem ctx_contains_eq_decide (l : List Ctx) (a : Ctx) : l.contains a = decide (a ∈ l) := by
  cases h : decide (a ∈ l)
  · cases hc : l.contains a
    · rfl
    · simp [ctx_contains_iff.mp hc] at h
  · exact ctx_contains_iff.mpr (of_decide_eq_true h)

/-- Contains is preserved by first-occurrence deduplication. -/
theorem contains_dedupFirst (l : List Ctx) (a : Ctx) :
    (dedupFirst l).contains a = l.contains a := by
  rw [ctx_contains_eq_decide, ctx_contains_eq_decide]
  simp [mem_dedupFirst]

/-- Contains after filtering out read. -/
theorem contains_filter_read (l : List Ctx) (a : Ctx) :
    (l.filter (fun c => c != Ctx.read)).contains a = (l.contains a && (a != Ctx.read)) := by
  rw [ctx_contains_eq_decide, ctx_contains_eq_decide]
  by_cases hm : a ∈ l
  · by_cases hr : a = Ctx.read
    · subst hr
      simp [List.mem_filter, hm]
    · simp [List.mem_filter, hm, hr]
  · simp [List.mem_filter, hm]

/-- The inclusive compiler is the four-flag function showFromBools applied to
the context memberships, after normalizing read away under query; in
particular it is total and its query/read recursion bottoms out at once. -/
theorem show_eq_bools (l : List Ctx) :
    contextsToHideFieldPattern l =
      showFromBools (l.contains Ctx.query)
        (l.contains Ctx.read && !(l.contains Ctx.query))
        (l.contains Ctx.create) (l.contains Ctx.update) := by
  have main : ∀ (n : Nat) (l : List Ctx), l.length ≤ n →
      contextsToHideFieldPattern l =
        showFromBools (l.contains Ctx.query)
          (l.contains Ctx.read && !(l.contains Ctx.query))
          (l.contains Ctx.create) (l.contains Ctx.update) := by
    intro n
    induction n with
    | zero =>
      intro l hl
      have hnil : l = [] := List.eq_nil_of_length_eq_zero (Nat.le_zero.mp hl)
      subst hnil
      rw [contextsToHideFieldPattern.eq_def]
      simp [dedupFirst, showFromBools]
    | succ n ih =>
      intro l hl
      rw [contextsToHideFieldPattern.eq_def]
      simp only [contains_dedupFirst]
      by_cases hqr : (l.contains Ctx.query && l.contains Ctx.read) = true
      · rw [dif_pos hqr]
        obtain ⟨hq, hr⟩ := Bool.and_eq_true_iff.mp hqr
        have hread : Ctx.read ∈ dedupFirst l :=
          mem_dedupFirst.mpr (ctx_contains_iff.mp hr)
        have hlen : ((dedupFirst l).filter (fun c => c != Ctx.read)).length ≤ n := by
          have h1 : ((dedupFirst l).filter (fun c => c != Ctx.read)).length
              < (dedupFirst l).length :=
            length_filter_lt _ _ Ctx.read hread (by decide)
          have h2 := dedupFirst_length_le l
          omega
        rw [ih _ hlen]
        simp only [contains_filter_read, contains_dedupFirst, hq, hr]
        have e1 : (Ctx.query != Ctx.read) = true := by decide
        have e2 : (Ctx.read != Ctx.read) = false := by decide
        have e3 : (Ctx.create != Ctx.read) = true := by decide
        have e4 : (Ctx.update != Ctx.read) = true := by decide
        simp [e1, e2, e3, e4]
      · rw [dif_neg hqr]
        cases hq : l.contains Ctx.query
        · simp [hq]
        · have hr : l.contains Ctx.read = false := by
            cases hrr : l.contains Ctx.read
            · rfl
            · refine absurd ?_ hqr
              rw [hq, hrr]
              decide
          have hr2 : decide (Ctx.read ∈ l) = false := by
            rw [← ctx_contains_eq_decide]
            exact hr
          simp [hq, hr, hr2]
  exact main l.length l (Nat.le_refl _)

/-- Parsing the synthetic boolean-true argument list recovers exactly the
context list and emits no warnings. -/
theorem collect_synth (mkWarn : String → Warning) (cs : List Ctx) :
    collectContexts mkWarn (cs.map mkBoolArg) = (cs, []) := by
  induction cs with
  | nil => rfl
  | cons c rest ih =>
    have h1 : ctxOfName (mkBoolArg c).name = some c := by cases c <;> rfl
    have h2 : argIsTrue (mkBoolArg c) = true := by rfl
    simp only [List.map_cons, collectContexts, h1, h2, if_true, ih]

/-- The exclusive compiler on a synthetic boolean-flag attribute is the
four-flag function hideFromBools applied to the context memberships, after
normalizing read away under query, and it emits no warnings; in particular
it is total and its query/read recursion bottoms out at once. -/
theorem hide_eq_bools (cs : List Ctx) (hne0 : cs ≠ []) (fieldName modelName : String) :
    parseHideContexts (mkArgsOnlyAttr cs) fieldName modelName =
      (hideFromBools (cs.contains Ctx.query)
        (cs.contains Ctx.read && !(cs.contains Ctx.query))
        (cs.contains Ctx.create) (cs.contains Ctx.update), []) := by
  have main : ∀ (n : Nat) (cs : List Ctx), cs.length ≤ n → cs ≠ [] →
      parseHideContexts (mkArgsOnlyAttr cs) fieldName modelName =
        (hideFromBools (cs.contains Ctx.query)
          (cs.contains Ctx.read && !(cs.contains Ctx.query))
          (cs.contains Ctx.create) (cs.contains Ctx.update), []) := by
    intro n
    induction n with
    | zero =>
      intro cs hl h0
      exact absurd (List.eq_nil_of_length_eq_zero (Nat.le_zero.mp hl)) h0
    | succ n ih =>
      intro cs hl h0
      rw [parseHideContexts.eq_def]
      have hmapne : ¬(cs.map mkBoolArg = []) := by
        simp [List.map_eq_nil_iff, h0]
      simp only [mkArgsOnlyAttr, collect_synth, dif_neg hmapne, dif_neg h0]
      by_cases hqr : (cs.contains Ctx.query && cs.contains Ctx.read) = true
      · rw [dif_pos hqr]
        obtain ⟨hq, hr⟩ := Bool.and_eq_true_iff.mp hqr
        have hread : Ctx.read ∈ cs := ctx_contains_iff.mp hr
        have hquery : Ctx.query ∈ cs := ctx_contains_iff.mp hq
        have hlen : (cs.filter (fun c => c != Ctx.read)).length ≤ n := by
          have h1 := length_filter_lt (fun c => c != Ctx.read) cs Ctx.read hread (by decide)
          omega
        have hne2 : cs.filter (fun c => c != Ctx.read) ≠ [] :=
          List.ne_nil_of_mem (List.mem_filter.mpr ⟨hquery, by decide⟩)
        have ih2 := ih (cs.filter (fun c => c != Ctx.read)) hlen hne2
        simp only [mkArgsOnlyAttr] at ih2
        rw [ih2]
        simp only [contains_filter_read, hq, hr]
        have e1 : (Ctx.query != Ctx.read) = true := by decide
        have e2 : (Ctx.read != Ctx.read) = false := by decide
        have e3 : (Ctx.create != Ctx.read) = true := by decide
        have e4 : (Ctx.update != Ctx.read) = true := by decide
        simp [e1, e2, e3, e4]
      · rw [dif_neg hqr]
        cases hq : cs.contains Ctx.query
        · simp [hq]
        · have hr : cs.contains Ctx.read = false := by
            cases hrr : cs.contains Ctx.read
            · rfl
            · refine absurd ?_ hqr
              rw [hq, hrr]
              decide
          have hr2 : decide (Ctx.read ∈ cs) = false := by
            rw [← ctx_contains_eq_decide]
            exact hr
          simp [hq, hr, hr2]
  exact main cs.length cs (Nat.le_refl _) hne0

/-- The empty segment occurs in every character list. -/
theorem containsSeg_nil (l : List Char) : containsSeg [] l = true := by
  induction l with
  | nil => rfl
  | cons c rest ih => rfl

/-- A prefix of a list is a prefix of any right extension of it. -/
theorem prefixOf_append {sub a : List Char} (b : List Char)
    (h : sub.isPrefixOf a = true) : sub.isPrefixOf (a ++ b) = true := by
  induction sub generalizing a with
  | nil => simp [List.isPrefixOf]
  | cons x xs ih =>
    cases a with
    | nil => simp [List.isPrefixOf] at h
    | cons y ys =>
      simp only [List.cons_append, List.isPrefixOf, Bool.and_eq_true] at h ⊢
      exact ⟨h.1, ih h.2⟩

/-- A segment of a list is a segment of any right extension of it. -/
theorem containsSeg_append_left {sub a : List Char} (b : List Char)
    (h : containsSeg sub a = true) : containsSeg sub (a ++ b) = true := by
  induction a with
  | nil =>
    have hsub : sub = [] := by
      simpa [containsSeg, List.isEmpty_iff] using h
    subst hsub
    exact containsSeg_nil b
  | cons c rest ih =>
    simp only [containsSeg, Bool.or_eq_true] at h
    rcases h with h | h
    · simp only [List.cons_append, containsSeg, Bool.or_eq_true]
      exact Or.inl (prefixOf_append b h)
    · simp only [List.cons_append, containsSeg, Bool.or_eq_true]
      exact Or.inr (ih h)

/-- A substring of a string is a substring of any right extension of it. -/
theorem strIncludes_append_left (a b sub : String) (h : strIncludes a sub = true) :
    strIncludes (a ++ b) sub = true := by
  unfold strIncludes at h ⊢
  have hd : (a ++ b).data = a.data ++ b.data := String.data_append a b
  rw [hd]
  exact containsSeg_append_left _ h

/-- Every comment the formatter produces carries the HideField marker. -/
theorem gen_comment_marker (p : HideFieldParams) :
    strIncludes (generateHideFieldComment p) "@HideField" = true := by
  unfold generateHideFieldComment
  by_cases h1 : truthyStr p.«match» = true
  · rw [if_pos h1]
    exact strIncludes_append_left _ _ _ (strIncludes_append_left _ _ _ (by decide))
  · rw [if_neg h1]
    by_cases h2 : (p.input.isSome || p.output.isSome) = true
    · rw [if_pos h2]
      exact strIncludes_append_left _ _ _ (strIncludes_append_left _ _ _ (by decide))
    · rw [if_neg h2]
      decide

/-- After an attach attempt the field always carries the marker. -/
theorem marker_after_addHide (f : Field) (p : HideFieldParams) :
    hasHideFieldComment (addHideFieldComment f p).comments = true := by
  unfold addHideFieldComment
  by_cases h : hasHideFieldComment f.comments = true
  · rw [if_pos h]
    exact h
  · rw [if_neg h]
    simp [hasHideFieldComment, gen_comment_marker]

/-- Attaching on a field that already carries the marker changes nothing. -/
theorem addHide_noop (f : Field) (p : HideFieldParams)
    (h : hasHideFieldComment f.comments = true) : addHideFieldComment f p = f := by
  unfold addHideFieldComment
  rw [if_pos h]

/-- The per-field step returns the field unchanged or with one attach. -/
theorem processField_result (modelName : String) (f : Field) :
    (processField modelName f).1 = f ∨
    ∃ p, (processField modelName f).1 = addHideFieldComment f p := by
  rw [processField.eq_def]
  rcases hfa : findAttribute f "graphql.show" with _ | a
  · rcases hfh : findAttribute f "graphql.hide" with _ | b
    · by_cases hrel : f.typeRefType = some "DataModel"
      · rw [if_pos hrel]
        exact Or.inr ⟨_, rfl⟩
      · rw [if_neg hrel]
        exact Or.inl rfl
    · rcases hp : (parseHideContexts b f.name modelName).1 with _ | p
      · simp only [hp]
        exact Or.inl trivial
      · simp only [hp]
        exact Or.inr ⟨p, rfl⟩
  · rcases hc : (parseShowContexts a f.name modelName).1 with _ | cs
    · simp only [hc]
      exact Or.inl trivial
    · simp only [hc]
      rcases hd : contextsToHideFieldPattern cs with _ | p
      · simp only [hd]
        exact Or.inl trivial
      · simp only [hd]
        exact Or.inr ⟨p, rfl⟩

/-- The per-field step is idempotent on the field value. -/
theorem processField_idem (modelName : String) (f : Field) :
    (processField modelName (processField modelName f).1).1 = (processField modelName f).1 := by
  rcases processField_result modelName f with h | ⟨p, h⟩
  · rw [h]
    exact h
  · rw [h]
    rcases processField_result modelName (addHideFieldComment f p) with h2 | ⟨q, h2⟩
    · rw [h2]
    · rw [h2]
      exact addHide_noop _ _ (marker_after_addHide f p)

/-- The per-model step is idempotent on the model value. -/
theorem processModel_idem (m : DataModelDecl) :
    (processModel (processModel m).1).1 = (processModel m).1 := by
  unfold processModel
  simp only [List.map_map]
  have hfields : ∀ (fs : List Field),
      fs.map (Prod.fst ∘ processField m.name ∘ (Prod.fst ∘ processField m.name)) =
        fs.map (Prod.fst ∘ processField m.name) := by
    intro fs
    induction fs with
    | nil => rfl
    | cons f t ih =>
      simp only [List.map_cons, Function.comp_apply, processField_idem, ih]
  simp [hfields]

/-- C5: running the orchestration pass twice over the same field set yields
the same per-field comment lists as running it once: after the first pass
every field at which a directive would be attached already carries a comment
with the HideField marker, so the second pass appends nothing. -/
theorem c5_orchestrator_idempotent (models : List DataModelDecl) :
    (runPass (runPass models).1).1 = (runPass models).1 := by
  unfold runPass
  simp only [List.map_map]
  induction models with
  | nil => rfl
  | cons m t ih =>
    simp only [List.map_cons, Function.comp_apply, processModel_idem, ih]

/-- C1 counterexample: for the show annotation whose only context is read,
the inclusive compiler does not return the alternation with the Where
fragment first that the specification states. -/
theorem c1_counterexample :
    contextsToHideFieldPattern [Ctx.read] ≠
      some { «match» := some "@(*(Where*Input)|*(*Create*Input)|*(*Update*Input))" } := by
  rw [show_eq_bools]
  decide

/-- C1 amended: for a show annotation whose only context is read, the
inclusive compiler returns a Pattern directive whose fragments are exactly
the Create, Update and Where input fragments, in that order, formatted as
the alternation with the Where fragment last. -/
theorem c1_read_only_show (cs : List Ctx) (hne : cs ≠ [])
    (hall : ∀ c ∈ cs, c = Ctx.read) :
    contextsToHideFieldPattern cs =
      some { «match» := some "@(*(*Create*Input)|*(*Update*Input)|*(Where*Input))" } := by
  obtain ⟨c0, t0, rfl⟩ : ∃ c0 t0, cs = c0 :: t0 := by
    cases cs with
    | nil => exact absurd rfl hne
    | cons a b => exact ⟨a, b, rfl⟩
  have hq : (c0 :: t0).contains Ctx.query = false := by
    cases h : (c0 :: t0).contains Ctx.query
    · rfl
    · exact absurd (hall _ (ctx_contains_iff.mp h)) (by decide)
  have hr : (c0 :: t0).contains Ctx.read = true := by
    have h0 : c0 = Ctx.read := hall c0 (List.mem_cons_self c0 t0)
    exact ctx_contains_iff.mpr (by rw [h0]; exact List.mem_cons_self _ _)
  have hc : (c0 :: t0).contains Ctx.create = false := by
    cases h : (c0 :: t0).contains Ctx.create
    · rfl
    · exact absurd (hall _ (ctx_contains_iff.mp h)) (by decide)
  have hu : (c0 :: t0).contains Ctx.update = false := by
    cases h : (c0 :: t0).contains Ctx.update
    · rfl
    · exact absurd (hall _ (ctx_contains_iff.mp h)) (by decide)
  rw [show_eq_bools, hq, hr, hc, hu]
  decide

/-- Witness for the amended C1 statement at the literal show(read:true). -/
theorem c1_read_only_show_witness :
    contextsToHideFieldPattern [Ctx.read] =
      some { «match» := some "@(*(*Create*Input)|*(*Update*Input)|*(Where*Input))" } :=
  c1_read_only_show [Ctx.read] (by decide) (by decide)

/-- The show attribute invoked with an empty argument list. -/
def showNoArgsAttr : Attr :=
  { declName := some "graphql.show", refText := "graphql.show", args := some [] }

/-- The show attribute invoked as show(query: true, read: true, create: true,
update: true). -/
def showAllFourAttr : Attr :=
  { declName := some "graphql.show", refText := "graphql.show",
    args := some ([Ctx.query, Ctx.read, Ctx.create, Ctx.update].map mkBoolArg) }

/-- C2: show with no arguments and show with all four contexts true both
compile to no directive, and the orchestrator leaves the field's comment
list unchanged in either case. -/
theorem c2_show_everywhere :
    (∀ fieldName modelName,
      (parseShowContexts showNoArgsAttr fieldName modelName).1 = none) ∧
    (∀ fieldName modelName,
      (parseShowContexts showAllFourAttr fieldName modelName).1 =
        some [Ctx.query, Ctx.read, Ctx.create, Ctx.update] ∧
      contextsToHideFieldPattern [Ctx.query, Ctx.read, Ctx.create, Ctx.update] = none) ∧
    (∀ modelName (f : Field),
      (findAttribute f "graphql.show" = some showNoArgsAttr ∨
       findAttribute f "graphql.show" = some showAllFourAttr) →
      (processField modelName f).1.comments = f.comments) := by
  have hparse4 : ∀ fieldName modelName,
      parseShowContexts showAllFourAttr fieldName modelName =
        (some [Ctx.query, Ctx.read, Ctx.create, Ctx.update], []) := by
    intro fn mn
    rfl
  have hcomp4 : contextsToHideFieldPattern [Ctx.query, Ctx.read, Ctx.create, Ctx.update] = none := by
    rw [show_eq_bools]
    decide
  refine ⟨fun fn mn => rfl, fun fn mn => ⟨by rw [hparse4], hcomp4⟩, ?_⟩
  intro mn f hf
  rcases hf with hf | hf
  · have h0 : parseShowContexts showNoArgsAttr f.name mn = (none, []) := rfl
    rw [processField.eq_def, hf]
    simp [h0]
  · rw [processField.eq_def, hf]
    simp [hparse4, hcomp4]

/-- A concrete relation field carrying the all-four show attribute. -/
def sampleShowField : Field :=
  { name := "author", typeRefType := some "DataModel",
    attributes := [showAllFourAttr], comments := [] }

/-- Witness for C2 at a concrete relation field carrying the all-four show
attribute. -/
theorem c2_show_everywhere_witness :
    (processField "Library" sampleShowField).1.comments = sampleShowField.comments :=
  c2_show_everywhere.2.2 "Library" sampleShowField (Or.inr rfl)

/-- C3: hide with no arguments compiles to the simple hide-everywhere
directive, and the formatter renders that directive as exactly the default
HideField comment string. -/
theorem c3_hide_everywhere :
    (∀ (a : Attr) fieldName modelName, (a.args = none ∨ a.args = some []) →
      (parseHideContexts a fieldName modelName).1 =
        some { input := some true, output := some true }) ∧
    generateHideFieldComment { input := some true, output := some true } =
      "/// @HideField(\x7b input: true, output: true \x7d)" := by
  constructor
  · intro a fn mn h
    rw [parseHideContexts.eq_def]
    split
    · rfl
    · rename_i args heq
      rcases h with h | h
      · rw [h] at heq
        cases heq
      · rw [h] at heq
        injection heq with heq2
        subst heq2
        rfl
  · rfl

/-- A concrete no-argument hide attribute. -/
def hideNoArgsAttr : Attr :=
  { declName := some "graphql.hide", refText := "graphql.hide", args := none }

/-- Witness for C3 at a concrete no-argument hide attribute. -/
theorem c3_hide_everywhere_witness :
    (parseHideContexts hideNoArgsAttr "internalId" "User").1 =
      some { input := some true, output := some true } :=
  c3_hide_everywhere.1 hideNoArgsAttr "internalId" "User" (Or.inl rfl)

/-- C4: for every context set containing both query and read, each compiler
returns the same directive as it returns for the same set with read removed. -/
theorem c4_query_read_normalization (cs : List Ctx) (fieldName modelName : String)
    (hq : Ctx.query ∈ cs) (hr : Ctx.read ∈ cs) :
    contextsToHideFieldPattern cs =
      contextsToHideFieldPattern (cs.filter (fun c => c != Ctx.read)) ∧
    (parseHideContexts (mkArgsOnlyAttr cs) fieldName modelName).1 =
      (parseHideContexts (mkArgsOnlyAttr (cs.filter (fun c => c != Ctx.read)))
        fieldName modelName).1 := by
  have hqc : cs.contains Ctx.query = true := ctx_contains_iff.mpr hq
  have hrc : cs.contains Ctx.read = true := ctx_contains_iff.mpr hr
  have hne : cs ≠ [] := List.ne_nil_of_mem hq
  have hne2 : cs.filter (fun c => c != Ctx.read) ≠ [] :=
    List.ne_nil_of_mem (List.mem_filter.mpr ⟨hq, by decide⟩)
  have e1 : (Ctx.query != Ctx.read) = true := by decide
  have e2 : (Ctx.read != Ctx.read) = false := by decide
  have e3 : (Ctx.create != Ctx.read) = true := by decide
  have e4 : (Ctx.update != Ctx.read) = true := by decide
  constructor
  · rw [show_eq_bools, show_eq_bools]
    simp only [contains_filter_read, hqc, hrc, e1, e2, e3, e4]
    simp
  · rw [hide_eq_bools cs hne, hide_eq_bools _ hne2]
    simp only [contains_filter_read, hqc, hrc, e1, e2, e3, e4]
    simp

/-- Witness for C4 at the context set holding query and read. -/
theorem c4_query_read_normalization_witness :
    contextsToHideFieldPattern [Ctx.query, Ctx.read] =
      contextsToHideFieldPattern ([Ctx.query, Ctx.read].filter (fun c => c != Ctx.read)) ∧
    (parseHideContexts (mkArgsOnlyAttr [Ctx.query, Ctx.read]) "publisher" "Book").1 =
      (parseHideContexts (mkArgsOnlyAttr ([Ctx.query, Ctx.read].filter (fun c => c != Ctx.read)))
        "publisher" "Book").1 :=
  c4_query_read_normalization [Ctx.query, Ctx.read] "publisher" "Book"
    (by decide) (by decide)

/-- C6: a field carrying neither a show nor a hide attribute receives the
default classification: a relation field has the hide-everywhere directive
comment appended, a non-relation field gets no comment. -/
theorem c6_default_classification (modelName : String) (f : Field)
    (hshow : findAttribute f "graphql.show" = none)
    (hhide : findAttribute f "graphql.hide" = none)
    (hfresh : hasHideFieldComment f.comments = false) :
    (processField modelName f).1.comments =
      f.comments ++ (if f.typeRefType = some "DataModel" then
        ["/// @HideField(\x7b input: true, output: true \x7d)"] else []) := by
  rw [processField.eq_def]
  simp only [hshow, hhide]
  by_cases hrel : f.typeRefType = some "DataModel"
  · rw [if_pos hrel, if_pos hrel]
    unfold addHideFieldComment
    rw [if_neg (by simp [hfresh])]
    rfl
  · rw [if_neg hrel, if_neg hrel]
    simp

/-- A concrete relation field with no visibility attributes. -/
def sampleRelationField : Field :=
  { name := "relatedBooks", typeRefType := some "DataModel",
    attributes := [], comments := [] }

/-- Witness for C6 at a concrete bare relation field. -/
theorem c6_default_classification_witness :
    (processField "Book" sampleRelationField).1.comments =
      sampleRelationField.comments ++
        (if sampleRelationField.typeRefType = some "DataModel" then
          ["/// @HideField(\x7b input: true, output: true \x7d)"] else []) :=
  c6_default_classification "Book" sampleRelationField rfl rfl rfl

/-- With no recognized true flag among the arguments, the collected context
list is empty. -/
theorem collect_empty_of_vacuous (mkWarn : String → Warning) (args : List AttrArg)
    (h : ∀ arg ∈ args, ctxOfName arg.name = none ∨ argIsTrue arg = false) :
    (collectContexts mkWarn args).1 = [] := by
  induction args with
  | nil => rfl
  | cons arg rest ih =>
    have harg := h arg (List.mem_cons_self arg rest)
    have hrest : ∀ a ∈ rest, ctxOfName a.name = none ∨ argIsTrue a = false :=
      fun a ha => h a (List.mem_cons_of_mem arg ha)
    simp only [collectContexts]
    rcases hx : ctxOfName arg.name with _ | c
    · simp [ih hrest]
    · rcases harg with h1 | h1
      · rw [hx] at h1
        cases h1
      · simp [h1, ih hrest]

/-- The warnings collected are exactly one per unknown-named argument, in
argument order. -/
theorem collect_snd_eq (mkWarn : String → Warning) (args : List AttrArg) :
    (collectContexts mkWarn args).2 =
      (args.filter (fun arg => (ctxOfName arg.name).isNone)).map
        (fun arg => mkWarn arg.name) := by
  induction args with
  | nil => rfl
  | cons arg rest ih =>
    simp only [collectContexts, List.filter_cons]
    rcases hx : ctxOfName arg.name with _ | c
    · simp [ih]
    · by_cases ht : argIsTrue arg = true
      · simp [ht, ih]
      · simp [ht, ih]

/-- C7: a hide attribute with a non-empty argument list but no recognized
boolean-true context compiles to no directive, leaves the field's comment
list unchanged, and the step emits exactly one vacuous-hide warning; when
every argument name is recognized that warning is the only one emitted. -/
theorem c7_vacuous_hide (modelName : String) (f : Field) (a : Attr) (args : List AttrArg)
    (hshow : findAttribute f "graphql.show" = none)
    (hhide : findAttribute f "graphql.hide" = some a)
    (hargs : a.args = some args) (hne : args ≠ [])
    (hvac : ∀ arg ∈ args, ctxOfName arg.name = none ∨ argIsTrue arg = false) :
    (parseHideContexts a f.name modelName).1 = none ∧
    (processField modelName f).1.comments = f.comments ∧
    ((processField modelName f).2.filter
      (fun w => w = Warning.vacuousHide modelName f.name)).length = 1 ∧
    ((∀ arg ∈ args, (ctxOfName arg.name).isSome = true) →
      (processField modelName f).2 = [Warning.vacuousHide modelName f.name]) := by
  have hcoll : (collectContexts (Warning.unknownHideParam modelName f.name) args).1 = [] :=
    collect_empty_of_vacuous _ args hvac
  have hparse : parseHideContexts a f.name modelName =
      (none, (collectContexts (Warning.unknownHideParam modelName f.name) args).2) := by
    rw [parseHideContexts.eq_def]
    split
    · rename_i heq
      rw [hargs] at heq
      cases heq
    · rename_i args2 heq
      rw [hargs] at heq
      injection heq with heq2
      subst heq2
      rw [dif_neg hne, dif_pos hcoll]
  have hproc : processField modelName f =
      (f, (collectContexts (Warning.unknownHideParam modelName f.name) args).2
        ++ [Warning.vacuousHide modelName f.name]) := by
    rw [processField.eq_def]
    simp only [hshow, hhide, hparse]
  refine ⟨by rw [hparse], by rw [hproc], ?_, ?_⟩
  · rw [hproc]
    simp only [List.filter_append, collect_snd_eq]
    have hleft : ((args.filter (fun arg => (ctxOfName arg.name).isNone)).map
        (fun arg => Warning.unknownHideParam modelName f.name arg.name)).filter
        (fun w => decide (w = Warning.vacuousHide modelName f.name)) = [] := by
      rw [List.filter_eq_nil_iff]
      intro w hw
      obtain ⟨arg, harg, rfl⟩ := List.mem_map.mp hw
      simp
    rw [hleft]
    simp
  · intro hrec
    have hnone : args.filter (fun arg => (ctxOfName arg.name).isNone) = [] := by
      rw [List.filter_eq_nil_iff]
      intro arg harg
      have h2 := hrec arg harg
      rcases hx : ctxOfName arg.name with _ | c
      · rw [hx] at h2
        cases h2
      · simp [hx]
    rw [hproc, collect_snd_eq, hnone]
    rfl

/-- A concrete hide attribute with one explicit but false argument. -/
def hideVacuousAttr : Attr :=
  { declName := some "graphql.hide", refText := "graphql.hide",
    args := some [{ name := "create", vtype := "BooleanLiteral", bvalue := some false }] }

/-- A concrete non-relation field carrying the vacuous hide attribute. -/
def sampleVacuousField : Field :=
  { name := "price", typeRefType := none,
    attributes := [hideVacuousAttr], comments := ["/// the price"] }

/-- Witness for C7 at a concrete vacuous hide invocation. -/
theorem c7_vacuous_hide_witness :
    (parseHideContexts hideVacuousAttr sampleVacuousField.name "Book").1 = none ∧
    (processField "Book" sampleVacuousField).1.comments = sampleVacuousField.comments ∧
    ((processField "Book" sampleVacuousField).2.filter
      (fun w => w = Warning.vacuousHide "Book" sampleVacuousField.name)).length = 1 ∧
    ((∀ arg ∈ [({ name := "create", vtype := "BooleanLiteral", bvalue := some false } : AttrArg)],
        (ctxOfName arg.name).isSome = true) →
      (processField "Book" sampleVacuousField).2 =
        [Warning.vacuousHide "Book" sampleVacuousField.name]) :=
  c7_vacuous_hide "Book" sampleVacuousField hideVacuousAttr _ rfl rfl rfl
    (by decide) (by decide)

/-- C8: for every normalized hidden context set that excludes output and
hides exactly one of create and update, the exclusive compiler drops the
filter and sort-order fragments, appends the (Output) marker, and returns
the pattern combining it with the remaining create or update fragment. -/
theorem c8_mixed_output_case (cs : List Ctx) (fieldName modelName : String)
    (hnorm : ¬(cs.contains Ctx.query = true ∧ cs.contains Ctx.read = true))
    (hout : cs.contains Ctx.query = true ∨ cs.contains Ctx.read = true)
    (hcu : cs.contains Ctx.create ≠ cs.contains Ctx.update) :
    (parseHideContexts (mkArgsOnlyAttr cs) fieldName modelName).1 =
      some { «match» := some (if cs.contains Ctx.create then
        "@(*(*Create*Input)|(Output))" else "@(*(*Update*Input)|(Output))") } := by
  have hne : cs ≠ [] := by
    rcases hout with h | h
    · exact List.ne_nil_of_mem (ctx_contains_iff.mp h)
    · exact List.ne_nil_of_mem (ctx_contains_iff.mp h)
  rw [hide_eq_bools cs hne]
  revert hnorm hout hcu
  generalize cs.contains Ctx.query = q
  generalize cs.contains Ctx.read = r
  generalize cs.contains Ctx.create = c
  generalize cs.contains Ctx.update = u
  cases q <;> cases r <;> cases c <;> cases u <;> decide

/-- Witness for C8 at the literal hide(query:true, create:true). -/
theorem c8_mixed_output_case_witness :
    (parseHideContexts (mkArgsOnlyAttr [Ctx.query, Ctx.create]) "price" "Book").1 =
      some { «match» := some (if [Ctx.query, Ctx.create].contains Ctx.create then
        "@(*(*Create*Input)|(Output))" else "@(*(*Update*Input)|(Output))") } :=
  c8_mixed_output_case [Ctx.query, Ctx.create] "price" "Book"
    (by decide) (by decide) (by decide)

/-- C9: over every context set, both compilers equal non-recursive total
functions of the four membership flags (read normalized away under query),
so for each of the 16 subsets they terminate after at most one normalization
recursion and return a defined directive. -/
theorem c9_totality :
    (∀ contexts : List Ctx, contextsToHideFieldPattern contexts =
      showFromBools (contexts.contains Ctx.query)
        (contexts.contains Ctx.read && !(contexts.contains Ctx.query))
        (contexts.contains Ctx.create) (contexts.contains Ctx.update)) ∧
    (∀ (cs : List Ctx) (fieldName modelName : String), cs ≠ [] →
      (parseHideContexts (mkArgsOnlyAttr cs) fieldName modelName).1 =
        hideFromBools (cs.contains Ctx.query)
          (cs.contains Ctx.read && !(cs.contains Ctx.query))
          (cs.contains Ctx.create) (cs.contains Ctx.update)) :=
  ⟨show_eq_bools, fun cs fn mn hne => by rw [hide_eq_bools cs hne fn mn]⟩

/-- Witness for C9 at the hide-query singleton set. -/
theorem c9_totality_witness :
    (parseHideContexts (mkArgsOnlyAttr [Ctx.query]) "stats" "Book").1 =
      hideFromBools ([Ctx.query].contains Ctx.query)
        ([Ctx.query].contains Ctx.read && !([Ctx.query].contains Ctx.query))
        ([Ctx.query].contains Ctx.create) ([Ctx.query].contains Ctx.update) :=
  c9_totality.2 [Ctx.query] "stats" "Book" (by decide)

/-- C10: whenever the exclusive compiler reaches its mixed case (output
hidden, fragment list non-empty, and none of the full-hide, output-only or
input-only cases applied), at least one of create and update is hidden, so
removing the Where and OrderBy fragments leaves the fragment list non-empty
and the simple fallback inside the mixed case is unreachable. -/
theorem c10_mixed_fallback_unreachable :
    ∀ hasQuery hasRead hasCreate hasUpdate : Bool,
      ¬((hasQuery || (hasRead && !hasQuery)) = true ∧ hasCreate = true ∧ hasUpdate = true ∧
        (hidePatterns hasQuery hasCreate hasUpdate).contains "*(Where*Input)" = true) →
      ¬((hasQuery || (hasRead && !hasQuery)) = true ∧ hasCreate = false ∧ hasUpdate = false) →
      ¬((hasQuery || (hasRead && !hasQuery)) = false ∧
        (hidePatterns hasQuery hasCreate hasUpdate).length > 0) →
      ((hasQuery || (hasRead && !hasQuery)) = true ∧
        (hidePatterns hasQuery hasCreate hasUpdate).length > 0) →
      (hasCreate || hasUpdate) = true ∧
      ((hidePatterns hasQuery hasCreate hasUpdate).filter
        (fun p => !(strIncludes p "Where") && !(strIncludes p "OrderBy"))).length > 0 := by
  decide

/-- Witness for C10 at the hide(query, create) flag combination. -/
theorem c10_mixed_fallback_unreachable_witness :
    ((true : Bool) || false) = true ∧
    ((hidePatterns true true false).filter
      (fun p => !(strIncludes p "Where") && !(strIncludes p "OrderBy"))).length > 0 :=
  c10_mixed_fallback_unreachable true false true false
    (by decide) (by decide) (by decide) (by decide)

end GqlHide
